import Mathlib

/-!
Verification development for the D-Scheduler repository (three Python
variants of a calendar/notes application).  The definitions below are a
shallow embedding of the pieces of the program that the claims concern:

* the JSON document handling of `CalendarApp._load_json_path` and
  `CalendarApp._write_json` (both the strict `D-Scheduler_Code` variant
  and the permissive `D-Scheduler` variant),
* the view-window bookkeeping (`set_view_anchor`, `rebuild_range`,
  `_append_days`, `_prepend_days`, `_on_scroll_extend_if_needed`),
* the column-deletion cascade (`SettingsDialog._remove_selected_col`),
* the autosave tick (`_autosave_tick`).

Python dictionaries are embedded as association lists with
insert-or-replace update (`dinsert`), which models CPython's insertion
ordered `dict` assignment.  Calendar dates are embedded as day numbers
(`Int`), with `daysFromCivil` converting a civil date to its day number
exactly as Python's `datetime.date` ordinal arithmetic does.
-/

namespace DScheduler

/-- JSON values as returned by Python's `json.load`, with numbers
restricted to integers (no claim involves fractional numbers). -/
inductive JVal where
  | null
  | bool (b : Bool)
  | int (n : Int)
  | str (s : String)
  | arr (xs : List JVal)
  | obj (kvs : List (String × JVal))

/-- Association-list lookup, first match wins: Python `d[k]` / `d.get(k)`
on dictionaries whose keys are unique. -/
def alookup {α : Type} (k : String) : List (String × α) → Option α
  | [] => none
  | (k1, v) :: t => if k1 = k then some v else alookup k t

/-- Python `d[k] = v` on an insertion-ordered dictionary: replace the
value in place when the key is present, append otherwise. -/
def dinsert {α : Type} (k : String) (v : α) :
    List (String × α) → List (String × α)
  | [] => [(k, v)]
  | p :: t => if p.1 = k then (k, v) :: t else p :: dinsert k v t

/-- The keys of an association list are pairwise distinct.  Holds for
every list built with `dinsert` from `[]`, mirroring Python dicts. -/
def keysNodup {α : Type} (m : List (String × α)) : Prop :=
  (m.map Prod.fst).Nodup

mutual

/-- Python `repr` of a decoded JSON value.  The punctuation of container
renderings is approximated (no claim depends on it); the scalar cases are
exact. -/
def pyRepr : JVal → String
  | .null => "None"
  | .bool b => if b then "True" else "False"
  | .int n => toString n
  | .str s => "\x27" ++ s ++ "\x27"
  | .arr xs => "[" ++ pyReprList xs ++ "]"
  | .obj kvs => "\x7b" ++ pyReprObj kvs ++ "\x7d"

/-- Comma-separated `repr` of the elements of a Python list. -/
def pyReprList : List JVal → String
  | [] => ""
  | [x] => pyRepr x
  | x :: y :: t => pyRepr x ++ ", " ++ pyReprList (y :: t)

/-- Comma-separated `repr` of the items of a Python dict. -/
def pyReprObj : List (String × JVal) → String
  | [] => ""
  | [p] => "\x27" ++ p.1 ++ "\x27: " ++ pyRepr p.2
  | p :: q :: t => "\x27" ++ p.1 ++ "\x27: " ++ pyRepr p.2 ++ ", " ++ pyReprObj (q :: t)

end

/-- Python `str` of a decoded JSON value (`str` is the identity on
strings and agrees with `repr` on everything else). -/
def pyStr : JVal → String
  | .str s => s
  | v => pyRepr v

/-- Python truthiness of a decoded JSON value (`None`, `False`, `0`,
`""`, `[]` and the empty dict are falsy). -/
def pyFalsy : JVal → Bool
  | .null => true
  | .bool b => !b
  | .int n => n = 0
  | .str s => s = ""
  | .arr xs => xs.isEmpty
  | .obj kvs => kvs.isEmpty

/-- `isinstance(v, int)` together with the `int` value it denotes
(Python `bool` is a subclass of `int`). -/
def asPyInt : JVal → Option Int
  | .int n => some n
  | .bool b => some (if b then 1 else 0)
  | _ => none

/-- Python `int(v)`, `none` when the call raises.  `int` of a string is
modelled by `String.toInt?` (decimal digits with an optional sign); the
load code only uses this under a `try` that falls back to a default. -/
def pyIntCoerce : JVal → Option Int
  | .int n => some n
  | .bool b => some (if b then 1 else 0)
  | .str s => s.toInt?
  | _ => none

/-- Python `str.strip()` (whitespace modelled as ASCII whitespace). -/
def pyStrip (s : String) : String :=
  ⟨((s.data.dropWhile Char.isWhitespace).reverse.dropWhile
      Char.isWhitespace).reverse⟩

/-- `re.fullmatch(r"\d\x7b4\x7d-\d\x7b2\x7d-\d\x7b2\x7d", k)` of
`_load_json_path`: ten characters, digits in the `YYYY-MM-DD` positions
and dashes between (digits modelled as ASCII digits).  The pattern does
not check that the string denotes a real calendar date. -/
def matchesDateShape (s : String) : Bool :=
  match s.data with
  | [a, b, c, d, e, f, g, h, i, j] =>
    a.isDigit && b.isDigit && c.isDigit && d.isDigit && e = '-' &&
    f.isDigit && g.isDigit && h = '-' && i.isDigit && j.isDigit
  | _ => false

/-- A column definition: `{"id": ..., "title": ..., "width": ...}`. -/
structure Column where
  id : String
  title : String
  width : Int
deriving DecidableEq

/-- Day number of the civil date `y-m-d` (proleptic Gregorian), the
arithmetic underlying Python's `datetime.date` and `timedelta`.  Day 0
is 1970-01-01. -/
def daysFromCivil (y m d : Int) : Int :=
  let y1 := if m ≤ 2 then y - 1 else y
  let era := (if 0 ≤ y1 then y1 else y1 - 399) / 400
  let yoe := y1 - era * 400
  let mp := (m + 9) % 12
  let doy := (153 * mp + 2) / 5 + d - 1
  let doe := yoe * 365 + yoe / 4 - yoe / 100 + doy
  era * 146097 + doe - 719468

/-- The in-memory state of `CalendarApp` that the claims mention:
column definitions, the date-keyed cell mapping, the materialized window
`[range_start, range_end]` (as day numbers), the anchor date, and the
dirty flag. -/
structure AppState where
  columns : List Column
  cells : List (String × List (String × String))
  range_start : Int
  range_end : Int
  current_anchor_date : Int
  dirty : Bool
deriving DecidableEq

/-- Content of column `cid` on date key `k`: `self.cells[k][cid]` when
both keys are present. -/
def cellContent (cells : List (String × List (String × String)))
    (k cid : String) : Option String :=
  (alookup k cells).bind (alookup cid)

/-! ## `_load_json_path`, strict variant (`D-Scheduler_Code/d-scheduler.py`) -/

/-- `"" if txt is None else str(txt)` applied to each cell value. -/
def coerceCell : JVal → String
  | .null => ""
  | v => pyStr v

/-- The body of the cells loop of `_load_json_path`: keys are filtered by
`matchesDateShape`, values must be dicts, and each retained entry is the
value dict with every value coerced by `coerceCell`.  (JSON object keys
are always strings, so the `isinstance(cid, str)` guard never fires.) -/
def processEntry (u : List (String × JVal)) : List (String × String) :=
  u.foldl (fun acc p => dinsert p.1 (coerceCell p.2) acc) []

/-- One iteration of `for k, v in cells_raw.items()`. -/
def processCellsStep (acc : List (String × List (String × String)))
    (p : String × JVal) : List (String × List (String × String)) :=
  if matchesDateShape p.1 then
    match p.2 with
    | .obj u => dinsert p.1 (processEntry u) acc
    | _ => acc
  else acc

/-- The whole cells loop of `_load_json_path` (strict variant). -/
def processCells (kvs : List (String × JVal)) :
    List (String × List (String × String)) :=
  kvs.foldl processCellsStep []

/-- One iteration of the columns loop of `_load_json_path`: non-dict
entries are skipped; the id is `str(c.get("id") or "").strip()` with a
fresh uuid when empty and a uuid suffix when already seen; the title is
`str(c.get("title") or cid)`; the width is `int(c.get("width", 240))`
with 240 on failure, clamped to `[80, 1200]`.  The uuid draws are
modelled by the injected `supply`, indexed by a running counter. -/
def processColumnsAux (supply : Nat → String) :
    Nat → List String → List JVal → List Column
  | _, _, [] => []
  | ctr, seen, c :: t =>
    match c with
    | .obj kvs =>
      let idRaw := (alookup "id" kvs).getD .null
      let base := pyStrip (if pyFalsy idRaw then "" else pyStr idRaw)
      let cid0 := if base = "" then supply ctr else base
      let ctr1 := if base = "" then ctr + 1 else ctr
      let cid := if seen.contains cid0 then cid0 ++ "-" ++ supply ctr1 else cid0
      let ctr2 := if seen.contains cid0 then ctr1 + 1 else ctr1
      let titleRaw := (alookup "title" kvs).getD .null
      let title := if pyFalsy titleRaw then cid else pyStr titleRaw
      let width :=
        match alookup "width" kvs with
        | none => (240 : Int)
        | some w => (pyIntCoerce w).getD 240
      let width := max 80 (min width 1200)
      ⟨cid, title, width⟩ :: processColumnsAux supply ctr2 (cid :: seen) t
    | _ => processColumnsAux supply ctr seen t

/-- The columns block of `_load_json_path`: only a JSON array is
iterated; anything else leaves `cols` empty (which the caller rejects). -/
def processColumns (supply : Nat → String) : JVal → List Column
  | .arr xs => processColumnsAux supply 0 [] xs
  | _ => []

/-- JSON encoding of a column, as `_write_json` serializes it. -/
def columnToJVal (c : Column) : JVal :=
  .obj [("id", .str c.id), ("title", .str c.title), ("width", .int c.width)]

/-- JSON encoding of the column list. -/
def columnsToJVal (cs : List Column) : JVal :=
  .arr (cs.map columnToJVal)

/-- JSON encoding of one day record. -/
def rowToJVal (row : List (String × String)) : JVal :=
  .obj (row.map (fun p => (p.1, .str p.2)))

/-- JSON encoding of the cells mapping. -/
def cellsToJVal (cells : List (String × List (String × String))) : JVal :=
  .obj (cells.map (fun p => (p.1, rowToJVal p.2)))

/-- The document `_write_json` of `D-Scheduler_Code/d-scheduler.py`
serializes: `{"columns": self.columns, "cells": self.cells}` (the
serialize/parse pair of `json` is modelled as the identity on values). -/
def writeJsonDocCode (st : AppState) : JVal :=
  .obj [("columns", columnsToJVal st.columns), ("cells", cellsToJVal st.cells)]

/-- `CalendarApp._load_json_path` of `D-Scheduler_Code/d-scheduler.py`.

`doc = none` models `json.load` raising (unreadable file or malformed
JSON); a non-object document makes `obj.get` raise.  Both are caught
before any state is mutated.  After validation, `self.columns` and
`self.cells` are assigned; the optional `year`/`month` block then calls
`date(y, m, 1)`, which raises when the year is outside Python's
`[1, 9999]` — that exception is caught by the same handler, so the
function returns `False` with the columns and cells already replaced.
The result is the returned boolean together with the state as the method
leaves it. -/
def loadJsonDocCode (supply : Nat → String) (doc : Option JVal)
    (st : AppState) : Bool × AppState :=
  match doc with
  | none => (false, st)
  | some j =>
    match j with
    | .obj kvs =>
      let colsRaw := (alookup "columns" kvs).getD (columnsToJVal st.columns)
      let cols := processColumns supply colsRaw
      if cols.isEmpty then (false, st)
      else
        let cellsRaw := (alookup "cells" kvs).getD (cellsToJVal st.cells)
        let cells :=
          match cellsRaw with
          | .obj u => processCells u
          | _ => []
        let st1 := { st with columns := cols, cells := cells }
        match asPyInt ((alookup "year" kvs).getD .null),
              asPyInt ((alookup "month" kvs).getD .null) with
        | some y, some m =>
          if 1 ≤ m ∧ m ≤ 12 then
            if 1 ≤ y ∧ y ≤ 9999 then
              (true, { st1 with
                        range_start := daysFromCivil y m 1,
                        range_end := daysFromCivil y m 1 + 61,
                        dirty := false })
            else (false, st1)
          else (true, { st1 with dirty := false })
        | _, _ => (true, { st1 with dirty := false })
    | _ => (false, st)

/-! ## View-window operations (`D-Scheduler/d-scheduler.py`) -/

/-- `rebuild_range(start, end, keep_scroll)`: adopts the given bounds and
rematerializes every row of the closed interval from `self.cells` (the
table rebuild itself is rendering; the data effect is the bounds). -/
def rebuild_range (st : AppState) (s e : Int) : AppState :=
  { st with range_start := s, range_end := e }

/-- `set_view_anchor(anchor)`: records the anchor and rebuilds the
window as `anchor .. anchor + 61 days` with the anchor as top row. -/
def set_view_anchor (st : AppState) (anchor : Int) : AppState :=
  rebuild_range { st with current_anchor_date := anchor } anchor (anchor + 61)

/-- `_append_days(n)`: builds `n` fresh rows after the current end and
advances `range_end` by `n` days. -/
def append_days (st : AppState) (n : Nat) : AppState :=
  { st with range_end := st.range_end + n }

/-- `_prepend_days(n)`: inserts `n` fresh rows before the current start,
moves `range_start` back by `n` days and restores the previous top
visible date. -/
def prepend_days (st : AppState) (n : Nat) : AppState :=
  { st with range_start := st.range_start - n }

/-- The window operations named by the spec: jump/initialize, the two
extensions, and the in-place full rebuild (`rebuild_all`). -/
inductive ViewOp where
  | jumpTo (anchor : Int)
  | extendForward (n : Nat)
  | extendBackward (n : Nat)
  | rebuildAll
deriving DecidableEq

/-- Dispatch of a window operation on the state. -/
def applyViewOp (st : AppState) : ViewOp → AppState
  | .jumpTo a => set_view_anchor st a
  | .extendForward n => append_days st n
  | .extendBackward n => prepend_days st n
  | .rebuildAll => rebuild_range st st.range_start st.range_end

/-- `_build_row`: the rendered text of each column for the row keyed by
`k` is `self.cells[k][col["id"]]` when present and empty otherwise. -/
def renderRow (columns : List Column)
    (cells : List (String × List (String × String))) (k : String) :
    List String :=
  columns.map (fun c => (cellContent cells k c.id).getD "")

/-- The `CalendarApp` state at first launch before any file is loaded:
default columns, empty cells (window fields are irrelevant here and set
to day 0). -/
def emptyState : AppState :=
  { columns := [⟨"col-1", "予定", 260⟩, ⟨"col-2", "メモ", 260⟩],
    cells := [], range_start := 0, range_end := 61,
    current_anchor_date := 0, dirty := false }

/-! ## Scroll-edge extension handlers -/

/-- `_on_scroll_extend_if_needed` of `D-Scheduler/d-scheduler.py`: runs
on every `valueChanged` of the vertical scrollbar — there is no guard
distinguishing user scrolling from programmatic scrolling — and extends
by 60 days at whichever end is within 120 scroll units. -/
def onScrollExtendMid (st : AppState) (val mx : Int) : AppState :=
  let st1 := if mx - val < 120 then append_days st 60 else st
  if val < 120 then prepend_days st1 60 else st1

/-- In the `D-Scheduler` variant the scrollbar's `valueChanged` signal is
connected directly to `_on_scroll_extend_if_needed` and is never blocked,
so a programmatic scroll (`scrollToItem` inside `scroll_to_date`) that
moves the bar to `newVal` invokes the handler exactly like a user
scroll. -/
def programmaticScrollMid (st : AppState) (newVal mx : Int) : AppState :=
  onScrollExtendMid st newVal mx

/-- The scrollbar environment read by the strict variant's handler:
current value and bounds, whether the slider is held down, and the
`(last_user_scroll_ms, user_scroll_expire_ms)` pair recorded by
`_on_scroll_action` (absent until the first user scroll action). -/
structure ScrollEnv where
  val : Int
  mn : Int
  mx : Int
  sliderDown : Bool
  lastUser : Option (Int × Int)
deriving DecidableEq

/-- `_on_scroll_extend_if_needed` of `D-Scheduler_Code/d-scheduler.py`:
extension happens only when a user scroll action was recorded within the
expiry window (with an 80 ms floor) or the slider is being dragged; the
edge threshold is `max 8 (range / 20)` and the extension amount is
`expand_each`. -/
def onScrollExtendCode (st : AppState) (env : ScrollEnv) (nowMs : Int)
    (expandEach : Nat) : AppState :=
  let okUser :=
    match env.lastUser with
    | some lu => nowMs - lu.1 ≤ max 80 lu.2
    | none => false
  let okDrag := env.sliderDown
  if !(okUser || okDrag) then st
  else
    let rng := env.mx - env.mn
    if rng ≤ 0 then st
    else
      let near := max 8 (rng / 20)
      if env.mx - near ≤ env.val then
        rebuild_range st st.range_start (st.range_end + expandEach)
      else if env.val ≤ env.mn + near then
        rebuild_range st (st.range_start - expandEach) st.range_end
      else st

/-! ## Column deletion (`SettingsDialog._remove_selected_col`) -/

/-- `_remove_selected_col` of `D-Scheduler/d-scheduler.py`: for the
selected row `r`, delete the column's entry from every day record that
has one, then delete the definition itself.  (`r` always indexes
`self.app.columns` because the dialog's list mirrors it; an impossible
out-of-range `r` is a no-op here rather than the `IndexError` it would
be in Python.) -/
def removeSelectedCol (st : AppState) (r : Nat) : AppState :=
  match st.columns.get? r with
  | none => st
  | some col =>
    { st with
      cells := st.cells.map (fun p => (p.1, p.2.filter (fun q => q.1 ≠ col.id))),
      columns := st.columns.eraseIdx r }

/-! ## Autosave tick -/

/-- Whether the underlying file write raises an I/O error. -/
inductive WriteOutcome where
  | success
  | ioError
deriving DecidableEq

/-- What one `_autosave_tick` leaves behind: the dirty flag and whether a
warning dialog interrupted the user. -/
structure TickResult where
  dirty : Bool
  warningShown : Bool
deriving DecidableEq

/-- `_autosave_tick` of `D-Scheduler/d-scheduler.py`: `_write_json` there
has no handler of its own, so an I/O error propagates into the tick's
`except: pass`, skipping `self._dirty = False` and showing nothing. -/
def autosaveTickMid (dirty hasPath : Bool) (o : WriteOutcome) : TickResult :=
  if dirty && hasPath then
    match o with
    | .success => ⟨false, false⟩
    | .ioError => ⟨dirty, false⟩
  else ⟨dirty, false⟩

/-- `_autosave_tick` of `D-Scheduler_Code/d-scheduler.py`: `_write_json`
there wraps the whole write in its own `try/except` that shows a
`QMessageBox` warning and returns normally, so the tick's
`self._dirty = False` runs even when the write failed. -/
def autosaveTickCode (dirty hasPath : Bool) (o : WriteOutcome) : TickResult :=
  if dirty && hasPath then
    match o with
    | .success => ⟨false, false⟩
    | .ioError => ⟨false, true⟩
  else ⟨dirty, false⟩

/-! ## File-level write sequences (`_write_json`) -/

/-- Contents of the destination path and of its temporary sibling. -/
structure FSState where
  dest : Option String
  tmp : Option String
deriving DecidableEq

/-- The primitive file-system steps a write performs: truncating-open of
a path, appending a chunk to it, and the atomic `tmp.replace(path)`. -/
inductive FSOp where
  | truncDest
  | writeDest (chunk : String)
  | truncTmp
  | writeTmp (chunk : String)
  | replaceTmpDest
deriving DecidableEq

/-- Effect of one file-system step. -/
def applyFSOp (fs : FSState) : FSOp → FSState
  | .truncDest => { fs with dest := some "" }
  | .writeDest c => { fs with dest := some ((fs.dest.getD "") ++ c) }
  | .truncTmp => { fs with tmp := some "" }
  | .writeTmp c => { fs with tmp := some ((fs.tmp.getD "") ++ c) }
  | .replaceTmpDest => { dest := fs.tmp, tmp := none }

/-- All file-system states a concurrent reader can observe while the
given steps run, the initial and final states included. -/
def fsTrace (fs : FSState) : List FSOp → List FSState
  | [] => [fs]
  | op :: ops => fs :: fsTrace (applyFSOp fs op) ops

/-- `_write_json` of `D-Scheduler_Code/d-scheduler.py`: open the sibling
`path + ".tmp"` for writing, emit the serialized document (in whatever
chunks the JSON writer produces), then `tmp.replace(path)`. -/
def writeJsonOpsCode (chunks : List String) : List FSOp :=
  FSOp.truncTmp :: chunks.map FSOp.writeTmp ++ [FSOp.replaceTmpDest]

/-- `_write_json` of `D-Scheduler/d-scheduler.py` (and of
`カレンダーメモ帳.py`): `open(path, "w")` truncates the destination in
place and the serialized document is then written to it directly. -/
def writeJsonOpsMid (chunks : List String) : List FSOp :=
  FSOp.truncDest :: chunks.map FSOp.writeDest

/-! ## Concrete documents and states used to instantiate the claims -/

/-- A small well-formed document: one column, one day record. -/
def c1doc : JVal :=
  .obj [("columns", .arr [.obj [("id", .str "col-1"), ("title", .str "予定"),
                                ("width", .int 260)]]),
        ("cells", .obj [("2025-01-05", .obj [("col-1", .str "meeting")])])]

/-- The state a strict load of `c1doc` over `emptyState` produces. -/
def c1st1 : AppState :=
  { columns := [⟨"col-1", "予定", 260⟩],
    cells := [("2025-01-05", [("col-1", "meeting")])],
    range_start := 0, range_end := 61, current_anchor_date := 0,
    dirty := false }

/-- A document whose `columns`/`cells` are valid but whose `year` is `0`:
`date(0, 1, 1)` raises inside `_load_json_path` after the columns and
cells have already been assigned. -/
def c4doc : JVal :=
  .obj [("columns", .arr [.obj [("id", .str "a"), ("title", .str "t"),
                                ("width", .int 100)]]),
        ("cells", .obj []),
        ("year", .int 0), ("month", .int 1)]

/-- The scenario document of the spec: a cells key that is not shaped
like a date, and one that is shaped like a date but is no calendar date. -/
def c5doc : JVal :=
  .obj [("columns", .arr [.obj [("id", .str "col-1"), ("title", .str "T"),
                                ("width", .int 240)]]),
        ("cells", .obj [("bad-key", .obj [("col-1", .str "a")]),
                        ("2025-02-30", .obj [("col-1", .str "b")])])]

/-- The state a strict load of `c5doc` over `emptyState` produces. -/
def c5st1 : AppState :=
  { columns := [⟨"col-1", "T", 240⟩],
    cells := [("2025-02-30", [("col-1", "b")])],
    range_start := 0, range_end := 61, current_anchor_date := 0,
    dirty := false }

/-- A document with a cell entry whose column id (`ghost`) does not
occur in the document's column list. -/
def c10doc : JVal :=
  .obj [("columns", .arr [.obj [("id", .str "col-1"), ("title", .str "T"),
                                ("width", .int 240)]]),
        ("cells", .obj [("2025-01-05", .obj [("ghost", .str "boo")])])]

/-- The state a strict load of `c10doc` over `emptyState` produces. -/
def c10st1 : AppState :=
  { columns := [⟨"col-1", "T", 240⟩],
    cells := [("2025-01-05", [("ghost", "boo")])],
    range_start := 0, range_end := 61, current_anchor_date := 0,
    dirty := false }

/-- A state with two columns and two day records, used to instantiate
the column-deletion claim. -/
def c6st : AppState :=
  { columns := [⟨"col-1", "予定", 260⟩, ⟨"col-2", "メモ", 260⟩],
    cells := [("2025-01-05", [("col-1", "a"), ("col-2", "b")]),
              ("2025-01-06", [("col-2", "c")])],
    range_start := 0, range_end := 61, current_anchor_date := 0,
    dirty := false }

/-! ## Dictionary lemmas -/

theorem alookup_dinsert {α : Type} (k k1 : String) (v : α)
    (m : List (String × α)) :
    alookup k (dinsert k1 v m) = if k1 = k then some v else alookup k m := by
  induction m with
  | nil => simp [dinsert, alookup]
  | cons p t ih =>
    by_cases hp : p.1 = k1
    · simp only [dinsert, hp, if_true, alookup]
      by_cases hk : k1 = k
      · simp [hk]
      · simp [hk, alookup, hp]
    · simp only [dinsert, hp, if_false, alookup]
      by_cases hpk : p.1 = k
      · have hk : k1 ≠ k := fun h => hp (h ▸ hpk)
        simp [hpk, hk]
      · simp [hpk, ih]

theorem alookup_eq_none {α : Type} (k : String) (m : List (String × α))
    (h : k ∉ m.map Prod.fst) : alookup k m = none := by
  induction m with
  | nil => rfl
  | cons p t ih =>
    simp only [List.map_cons, List.mem_cons] at h
    push_neg at h
    have hp : p.1 ≠ k := fun hh => h.1 hh.symm
    simpa [alookup, hp] using ih h.2

theorem mem_keys_of_alookup {α : Type} (k : String) (m : List (String × α))
    (v : α) (h : alookup k m = some v) : k ∈ m.map Prod.fst := by
  induction m with
  | nil => simp [alookup] at h
  | cons p t ih =>
    simp only [alookup] at h
    by_cases hp : p.1 = k
    · simp [List.map_cons, hp]
    · simp only [hp, if_false] at h
      simp [List.map_cons, ih h]

theorem alookup_map_value {α β : Type} (g : α → β) (k : String)
    (m : List (String × α)) :
    alookup k (m.map (fun p => (p.1, g p.2))) = (alookup k m).map g := by
  induction m with
  | nil => rfl
  | cons p t ih =>
    by_cases hp : p.1 = k
    · simp [alookup, hp]
    · simp [alookup, hp, ih]

theorem mem_keys_dinsert {α : Type} (k k1 : String) (v : α)
    (m : List (String × α)) (h : k ∈ (dinsert k1 v m).map Prod.fst) :
    k = k1 ∨ k ∈ m.map Prod.fst := by
  induction m with
  | nil =>
    simp only [dinsert, List.map_cons, List.map_nil, List.mem_singleton] at h
    exact Or.inl h
  | cons p t ih =>
    by_cases hp : p.1 = k1
    · simp only [dinsert, hp, if_true, List.map_cons, List.mem_cons] at h
      rcases h with h | h
      · exact Or.inl h
      · exact Or.inr (by simp [List.map_cons, h])
    · simp only [dinsert, hp, if_false, List.map_cons, List.mem_cons] at h
      rcases h with h | h
      · exact Or.inr (by simp [List.map_cons, h])
      · rcases ih h with h1 | h1
        · exact Or.inl h1
        · exact Or.inr (by simp [List.map_cons, h1])

theorem keysNodup_dinsert {α : Type} (k : String) (v : α)
    (m : List (String × α)) (h : keysNodup m) : keysNodup (dinsert k v m) := by
  induction m with
  | nil => simp [dinsert, keysNodup]
  | cons p t ih =>
    simp only [keysNodup, List.map_cons, List.nodup_cons] at h
    by_cases hp : p.1 = k
    · simpa [keysNodup, dinsert, hp, List.nodup_cons] using h
    · have ht := ih h.2
      simp only [keysNodup, dinsert, hp, if_false, List.map_cons,
        List.nodup_cons]
      refine ⟨fun hmem => ?_, ht⟩
      rcases mem_keys_dinsert p.1 k v t hmem with h1 | h1
      · exact hp h1
      · exact h.1 h1

theorem mem_dinsert {α : Type} (q : String × α) (k : String) (v : α)
    (m : List (String × α)) (h : q ∈ dinsert k v m) :
    q = (k, v) ∨ q ∈ m := by
  induction m with
  | nil => simpa [dinsert] using h
  | cons p t ih =>
    by_cases hp : p.1 = k
    · simp only [dinsert, hp, if_true, List.mem_cons] at h
      rcases h with h | h
      · exact Or.inl h
      · exact Or.inr (List.mem_cons_of_mem _ h)
    · simp only [dinsert, hp, if_false, List.mem_cons] at h
      rcases h with h | h
      · exact Or.inr (h ▸ List.mem_cons_self _ _)
      · rcases ih h with h1 | h1
        · exact Or.inl h1
        · exact Or.inr (List.mem_cons_of_mem _ h1)

/-- A property preserved by every fold step is preserved by the fold. -/
theorem foldl_preserve {α β : Type} (P : α → Prop) (step : α → β → α)
    (h : ∀ a b, P a → P (step a b)) :
    ∀ (l : List β) (a : α), P a → P (l.foldl step a) := by
  intro l
  induction l with
  | nil => intro a ha; exact ha
  | cons b t ih => intro a ha; exact ih _ (h a b ha)

/-! ## Characterizations of the cells-loop folds -/

theorem processEntry_foldl_lookup (u : List (String × JVal)) :
    ∀ (acc : List (String × String)) (cid : String), keysNodup u →
      alookup cid (u.foldl (fun a p => dinsert p.1 (coerceCell p.2) a) acc) =
        match alookup cid u with
        | some jv => some (coerceCell jv)
        | none => alookup cid acc := by
  induction u with
  | nil => intro acc cid _; rfl
  | cons p t ih =>
    intro acc cid hnd
    simp only [keysNodup, List.map_cons, List.nodup_cons] at hnd
    rw [List.foldl_cons, ih _ cid hnd.2]
    by_cases hc : p.1 = cid
    · have ht : alookup cid t = none := by
        apply alookup_eq_none
        intro hm
        exact hnd.1 (hc ▸ hm)
      simp [alookup, hc, ht, alookup_dinsert]
    · simp only [alookup, hc, if_false]
      cases halt : alookup cid t with
      | some jv => simp
      | none => simp [alookup_dinsert, hc]

/-- Lookup in the loaded cell entry: each key of the value dict maps to
its coerced text. -/
theorem processEntry_lookup (u : List (String × JVal)) (cid : String)
    (h : keysNodup u) :
    alookup cid (processEntry u) = (alookup cid u).map coerceCell := by
  rw [processEntry, processEntry_foldl_lookup u [] cid h]
  cases alookup cid u <;> rfl

theorem processCells_foldl_lookup (kvs : List (String × JVal)) :
    ∀ (acc : List (String × List (String × String))) (k : String),
      keysNodup kvs →
      alookup k (kvs.foldl processCellsStep acc) =
        match alookup k kvs with
        | some (.obj u) =>
          if matchesDateShape k then some (processEntry u) else alookup k acc
        | some _ => alookup k acc
        | none => alookup k acc := by
  induction kvs with
  | nil => intro acc k _; rfl
  | cons p t ih =>
    intro acc k hnd
    simp only [keysNodup, List.map_cons, List.nodup_cons] at hnd
    rw [List.foldl_cons, ih _ k hnd.2]
    by_cases hc : p.1 = k
    · have ht : alookup k t = none := by
        apply alookup_eq_none
        intro hm
        exact hnd.1 (hc ▸ hm)
      simp only [alookup, hc, if_true, ht]
      by_cases hs : matchesDateShape p.1
      · have hsk : matchesDateShape k = true := hc ▸ hs
        cases hv : p.2 <;>
          simp [processCellsStep, hs, hsk, hc, hv, alookup_dinsert]
      · have hs' : ¬ matchesDateShape k = true := hc ▸ hs
        cases hv : p.2 <;>
          simp [processCellsStep, hs, hs', hv]
    · simp only [alookup, hc, if_false]
      cases halt : alookup k t with
      | some jv =>
        cases jv <;>
          · by_cases hs : matchesDateShape p.1
            · cases hv : p.2 <;>
                simp [processCellsStep, hs, hv, alookup_dinsert, hc]
            · cases hv : p.2 <;> simp [processCellsStep, hs, hv]
      | none =>
        by_cases hs : matchesDateShape p.1
        · cases hv : p.2 <;>
            simp [processCellsStep, hs, hv, alookup_dinsert, hc]
        · cases hv : p.2 <;> simp [processCellsStep, hs, hv]

/-- Lookup in the loaded cells mapping: a key survives exactly when it
matches the date shape and its value is a dict, and it then maps to the
processed entry. -/
theorem processCells_lookup (kvs : List (String × JVal)) (k : String)
    (h : keysNodup kvs) :
    alookup k (processCells kvs) =
      match alookup k kvs with
      | some (.obj u) =>
        if matchesDateShape k then some (processEntry u) else none
      | some _ => none
      | none => none := by
  rw [processCells, processCells_foldl_lookup kvs [] k h]
  cases hv : alookup k kvs with
  | some jv => cases jv <;> simp [alookup]
  | none => rfl

/-! ## Invariants of the loaded cells mapping -/

theorem processEntry_keysNodup (u : List (String × JVal)) :
    keysNodup (processEntry u) := by
  refine foldl_preserve keysNodup _ ?_ u [] ?_
  · intro a b ha
    exact keysNodup_dinsert b.1 (coerceCell b.2) a ha
  · simp [keysNodup]

theorem processCells_keysNodup (kvs : List (String × JVal)) :
    keysNodup (processCells kvs) := by
  refine foldl_preserve keysNodup _ ?_ kvs [] ?_
  · intro a b ha
    unfold processCellsStep
    by_cases hs : matchesDateShape b.1
    · cases hv : b.2 <;>
        simp [hs, hv, ha, keysNodup_dinsert]
    · simp [hs, ha]
  · simp [keysNodup]

/-- Each fold step of the cells loop only inserts shape-valid keys. -/
def ShapeKeys (a : List (String × List (String × String))) : Prop :=
  ∀ k1 ∈ a.map Prod.fst, matchesDateShape k1 = true

theorem processCells_keys_shape (kvs : List (String × JVal)) (k : String)
    (h : k ∈ (processCells kvs).map Prod.fst) : matchesDateShape k = true := by
  have main : ShapeKeys (kvs.foldl processCellsStep []) := by
    refine foldl_preserve ShapeKeys processCellsStep ?_ kvs [] ?_
    · intro a b ha
      unfold processCellsStep
      by_cases hs : matchesDateShape b.1
      · cases hv : b.2 with
        | obj u =>
          simp only [hs, hv, if_true]
          intro k1 hk1
          rcases mem_keys_dinsert k1 b.1 (processEntry u) a hk1 with h1 | h1
          · exact h1 ▸ hs
          · exact ha k1 h1
        | null => simpa [hs, hv] using ha
        | bool b1 => simpa [hs, hv] using ha
        | int n => simpa [hs, hv] using ha
        | str s => simpa [hs, hv] using ha
        | arr xs => simpa [hs, hv] using ha
      · simpa [hs] using ha
    · intro k1 hk1
      simp at hk1
  exact main k h

/-- All rows stored by the cells loop have pairwise-distinct keys. -/
def RowsNodup (a : List (String × List (String × String))) : Prop :=
  ∀ q ∈ a, keysNodup q.2

theorem processCells_rows_keysNodup (kvs : List (String × JVal))
    (p : String × List (String × String)) (h : p ∈ processCells kvs) :
    keysNodup p.2 := by
  have main : RowsNodup (kvs.foldl processCellsStep []) := by
    refine foldl_preserve RowsNodup processCellsStep ?_ kvs [] ?_
    · intro a b ha
      unfold processCellsStep
      by_cases hs : matchesDateShape b.1
      · cases hv : b.2 with
        | obj u =>
          simp only [hs, hv, if_true]
          intro q hq
          rcases mem_dinsert q b.1 (processEntry u) a hq with h1 | h1
          · rw [h1]; exact processEntry_keysNodup u
          · exact ha q h1
        | null => simpa [hs, hv] using ha
        | bool b1 => simpa [hs, hv] using ha
        | int n => simpa [hs, hv] using ha
        | str s => simpa [hs, hv] using ha
        | arr xs => simpa [hs, hv] using ha
      · simpa [hs] using ha
    · intro q hq
      simp at hq
  exact main p h

/-! ## Shape of a successful strict load -/

/-- The cells value a strict load adopts, as a function of the raw
document object and the previous state. -/
def loadedCells (kvs : List (String × JVal)) (st : AppState) :
    List (String × List (String × String)) :=
  match (alookup "cells" kvs).getD (cellsToJVal st.cells) with
  | .obj u => processCells u
  | _ => []

/-- Unfolding a successful strict load: the document was a JSON object,
the adopted columns are the processed column list (nonempty), and the
adopted cells are `loadedCells`. -/
theorem loadCode_true_elim (supply : Nat → String) (j : JVal)
    (st st1 : AppState)
    (h : loadJsonDocCode supply (some j) st = (true, st1)) :
    ∃ kvs, j = .obj kvs ∧
      st1.columns =
        processColumns supply ((alookup "columns" kvs).getD (columnsToJVal st.columns)) ∧
      st1.columns ≠ [] ∧
      st1.cells = loadedCells kvs st := by
  cases j with
  | obj kvs =>
    refine ⟨kvs, rfl, ?_⟩
    simp only [loadJsonDocCode] at h
    split at h
    · exact absurd (congrArg Prod.fst h) (by simp)
    · rename_i hemp
      have hne : processColumns supply
          ((alookup "columns" kvs).getD (columnsToJVal st.columns)) ≠ [] := by
        intro hnil
        exact hemp (by simp [hnil])
      split at h
      · split at h
        · split at h
          · obtain ⟨-, h2⟩ := Prod.mk.inj h
            rw [← h2]
            exact ⟨rfl, hne, rfl⟩
          · exact absurd (congrArg Prod.fst h) (by simp)
        · obtain ⟨-, h2⟩ := Prod.mk.inj h
          rw [← h2]
          exact ⟨rfl, hne, rfl⟩
      · obtain ⟨-, h2⟩ := Prod.mk.inj h
        rw [← h2]
        exact ⟨rfl, hne, rfl⟩
  | null => exact absurd (congrArg Prod.fst h) (by simp [loadJsonDocCode])
  | bool b => exact absurd (congrArg Prod.fst h) (by simp [loadJsonDocCode])
  | int n => exact absurd (congrArg Prod.fst h) (by simp [loadJsonDocCode])
  | str s => exact absurd (congrArg Prod.fst h) (by simp [loadJsonDocCode])
  | arr xs => exact absurd (congrArg Prod.fst h) (by simp [loadJsonDocCode])

theorem loadedCells_good (kvs : List (String × JVal)) (st : AppState) :
    keysNodup (loadedCells kvs st) ∧ ShapeKeys (loadedCells kvs st) ∧
    RowsNodup (loadedCells kvs st) := by
  unfold loadedCells
  cases (alookup "cells" kvs).getD (cellsToJVal st.cells) with
  | obj u =>
    exact ⟨processCells_keysNodup u, fun k hk => processCells_keys_shape u k hk,
      fun q hq => processCells_rows_keysNodup u q hq⟩
  | null => exact ⟨by simp [keysNodup], by intro k hk; simp at hk, by intro q hq; simp at hq⟩
  | bool b => exact ⟨by simp [keysNodup], by intro k hk; simp at hk, by intro q hq; simp at hq⟩
  | int n => exact ⟨by simp [keysNodup], by intro k hk; simp at hk, by intro q hq; simp at hq⟩
  | str s => exact ⟨by simp [keysNodup], by intro k hk; simp at hk, by intro q hq; simp at hq⟩
  | arr xs => exact ⟨by simp [keysNodup], by intro k hk; simp at hk, by intro q hq; simp at hq⟩

/-! ## Round trip: reloading a just-written document -/

theorem alookup_mem {α : Type} (k : String) (m : List (String × α)) (v : α)
    (h : alookup k m = some v) : (k, v) ∈ m := by
  induction m with
  | nil => simp [alookup] at h
  | cons p t ih =>
    simp only [alookup] at h
    by_cases hp : p.1 = k
    · rw [if_pos hp] at h
      have hv : v = p.2 := (Option.some.inj h).symm
      have hkv : (k, v) = p := by
        rw [hv, ← hp]
      exact hkv ▸ List.mem_cons_self _ _
    · rw [if_neg hp] at h
      exact List.mem_cons_of_mem _ (ih h)

theorem keys_map_value {α β : Type} (g : α → β) (m : List (String × α)) :
    (m.map (fun p => (p.1, g p.2))).map Prod.fst = m.map Prod.fst := by
  induction m with
  | nil => rfl
  | cons p t ih => simp [ih]

theorem dinsert_append_of_fresh {α : Type} (k : String) (v : α)
    (m : List (String × α)) (h : k ∉ m.map Prod.fst) :
    dinsert k v m = m ++ [(k, v)] := by
  induction m with
  | nil => rfl
  | cons p t ih =>
    simp only [List.map_cons, List.mem_cons] at h
    push_neg at h
    have hp : p.1 ≠ k := fun hh => h.1 hh.symm
    simp [dinsert, hp, ih h.2]

theorem foldl_dinsert_fresh {α : Type} :
    ∀ (row acc : List (String × α)),
      (∀ p ∈ row, p.1 ∉ acc.map Prod.fst) → keysNodup row →
      row.foldl (fun a p => dinsert p.1 p.2 a) acc = acc ++ row := by
  intro row
  induction row with
  | nil => intro acc _ _; simp
  | cons p t ih =>
    intro acc hfresh hnd
    simp only [keysNodup, List.map_cons, List.nodup_cons] at hnd
    rw [List.foldl_cons,
      dinsert_append_of_fresh p.1 p.2 acc (hfresh p (List.mem_cons_self _ _))]
    rw [ih (acc ++ [(p.1, p.2)]) ?_ hnd.2]
    · simp
    · intro q hq
      simp only [List.map_append, List.mem_append, List.map_cons, List.map_nil,
        List.mem_singleton]
      push_neg
      refine ⟨hfresh q (List.mem_cons_of_mem _ hq), fun hh => ?_⟩
      exact hnd.1 (hh ▸ List.mem_map_of_mem Prod.fst hq)

theorem coerceCell_str (s : String) : coerceCell (.str s) = s := rfl

/-- Reloading a serialized day record yields the record itself. -/
theorem processEntry_rowToJVal (row : List (String × String))
    (h : keysNodup row) :
    processEntry (row.map (fun p => (p.1, JVal.str p.2))) = row := by
  unfold processEntry
  rw [List.foldl_map]
  have hstep : (fun (a : List (String × String)) (p : String × String) =>
      dinsert p.1 (coerceCell (JVal.str p.2)) a) =
      fun a p => dinsert p.1 p.2 a := rfl
  rw [hstep]
  simpa using foldl_dinsert_fresh row [] (by simp) h

/-- Reloading the serialized cells mapping preserves every lookup. -/
theorem roundtrip_cells_lookup (c : List (String × List (String × String)))
    (hnd : keysNodup c) (hsh : ShapeKeys c) (hrw : RowsNodup c) (k : String) :
    alookup k (processCells (c.map (fun p => (p.1, rowToJVal p.2)))) =
      alookup k c := by
  have hmapnd : keysNodup (c.map (fun p => (p.1, rowToJVal p.2))) := by
    unfold keysNodup at hnd ⊢
    rw [keys_map_value]
    exact hnd
  rw [processCells_lookup _ k hmapnd, alookup_map_value]
  cases hlk : alookup k c with
  | none => rfl
  | some row =>
    have hk : matchesDateShape k = true := hsh k (mem_keys_of_alookup k c row hlk)
    have hrownd : keysNodup row := hrw (k, row) (alookup_mem k c row hlk)
    have hmap : Option.map rowToJVal (some row) =
        some (JVal.obj (row.map (fun p => (p.1, JVal.str p.2)))) := rfl
    rw [hmap]
    show (if matchesDateShape k = true then
        some (processEntry (row.map (fun p => (p.1, JVal.str p.2))))
      else none) = some row
    rw [if_pos hk]
    exact congrArg some (processEntry_rowToJVal row hrownd)

theorem processColumnsAux_map_length (supply : Nat → String)
    (cs : List Column) :
    ∀ (ctr : Nat) (seen : List String),
      (processColumnsAux supply ctr seen (cs.map columnToJVal)).length =
        cs.length := by
  induction cs with
  | nil => intro ctr seen; rfl
  | cons c t ih =>
    intro ctr seen
    simp only [List.map_cons, columnToJVal, processColumnsAux, List.length_cons]
    rw [ih]

/-- Loading the document `_write_json` just produced always succeeds (the
written column list is nonempty) and adopts the reprocessed columns and
cells, leaving the window untouched (the written document carries no
`year`/`month`). -/
theorem load_writeDoc (supply2 : Nat → String) (st1 : AppState)
    (hne : st1.columns ≠ []) :
    loadJsonDocCode supply2 (some (writeJsonDocCode st1)) st1 =
      (true, { st1 with
                columns := processColumns supply2 (columnsToJVal st1.columns),
                cells := processCells
                  (st1.cells.map (fun p => (p.1, rowToJVal p.2))),
                dirty := false }) := by
  have hlk1 : ∀ A B : JVal, alookup "columns" [("columns", A), ("cells", B)] = some A := by
    intro A B; rfl
  have hlk2 : ∀ A B : JVal, alookup "cells" [("columns", A), ("cells", B)] = some B := by
    intro A B; rfl
  have hlk3 : ∀ A B : JVal, alookup "year" [("columns", A), ("cells", B)] = none := by
    intro A B; rfl
  have hlk4 : ∀ A B : JVal, alookup "month" [("columns", A), ("cells", B)] = none := by
    intro A B; rfl
  have hlen : (processColumns supply2 (columnsToJVal st1.columns)).length =
      st1.columns.length := processColumnsAux_map_length supply2 st1.columns 0 []
  have hemp : ¬ ((processColumns supply2 (columnsToJVal st1.columns)).isEmpty = true) := by
    intro hh
    rw [List.isEmpty_iff] at hh
    rw [hh] at hlen
    exact hne (List.length_eq_zero.mp hlen.symm)
  simp only [loadJsonDocCode, writeJsonDocCode]
  rw [hlk1, hlk2, hlk3, hlk4]
  simp only [Option.getD_some, Option.getD_none]
  rw [if_neg hemp]
  rfl

/-- C1 core lemma: a successful strict load followed by `_write_json`
and a strict reload reproduces the cells mapping lookup-for-lookup. -/
theorem load_write_load_core (supply1 supply2 : Nat → String) (doc : JVal)
    (st st1 : AppState)
    (h : loadJsonDocCode supply1 (some doc) st = (true, st1)) :
    ∃ st2,
      loadJsonDocCode supply2 (some (writeJsonDocCode st1)) st1 = (true, st2) ∧
      ∀ k, alookup k st2.cells = alookup k st1.cells := by
  obtain ⟨kvs, -, -, hne, hcells⟩ := loadCode_true_elim supply1 doc st st1 h
  obtain ⟨hnd, hsh, hrw⟩ := loadedCells_good kvs st
  rw [← hcells] at hnd hsh hrw
  refine ⟨_, load_writeDoc supply2 st1 hne, ?_⟩
  intro k
  exact roundtrip_cells_lookup st1.cells hnd hsh hrw k

/-! ## Claim theorems -/

/-- C1.  For every document accepted by `_load_json_path`, loading it,
immediately writing with `_write_json` and reloading the written
document succeeds and yields, for every date key and column id, the same
cell content as the first load produced (the invalid keys and entries
were already dropped by the first load), and the same per-date presence
of day records. -/
theorem load_write_load_roundtrip (supply1 supply2 : Nat → String)
    (doc : JVal) (st st1 : AppState)
    (h : loadJsonDocCode supply1 (some doc) st = (true, st1)) :
    ∃ st2,
      loadJsonDocCode supply2 (some (writeJsonDocCode st1)) st1 = (true, st2) ∧
      (∀ d cid, cellContent st2.cells d cid = cellContent st1.cells d cid) ∧
      (∀ d, (alookup d st2.cells).isSome = (alookup d st1.cells).isSome) := by
  obtain ⟨st2, h2, hl⟩ := load_write_load_core supply1 supply2 doc st st1 h
  refine ⟨st2, h2, ?_, ?_⟩
  · intro d cid
    unfold cellContent
    rw [hl d]
  · intro d
    rw [hl d]

/-- Witness for C1 at the concrete document `c1doc`. -/
theorem load_write_load_roundtrip_witness :
    ∃ st2,
      loadJsonDocCode (fun _ => "u") (some (writeJsonDocCode c1st1)) c1st1 =
        (true, st2) ∧
      (∀ d cid, cellContent st2.cells d cid = cellContent c1st1.cells d cid) ∧
      (∀ d, (alookup d st2.cells).isSome = (alookup d c1st1.cells).isSome) :=
  load_write_load_roundtrip (fun _ => "u") (fun _ => "u") c1doc emptyState c1st1
    (by decide)

/-- C4.  Evaluation of `_load_json_path` at the failing input `c4doc`
(valid columns and cells, `"year": 0`): the load reports failure, yet
the in-memory columns have been replaced by the document's columns — the
`date(y, m, 1)` call of the `year`/`month` block raises after
`self.columns`/`self.cells` were already assigned, contradicting the
no-partial-adoption claim. -/
theorem load_failure_adopts_columns :
    (loadJsonDocCode (fun _ => "u") (some c4doc) emptyState).1 = false ∧
    (loadJsonDocCode (fun _ => "u") (some c4doc) emptyState).2.columns =
      [⟨"a", "t", 100⟩] ∧
    (loadJsonDocCode (fun _ => "u") (some c4doc) emptyState).2.columns ≠
      emptyState.columns ∧
    (loadJsonDocCode (fun _ => "u") (some c4doc) emptyState).2.cells =
      [] := by
  decide

/-- C5 counterexample.  On the spec's scenario document the load
succeeds and drops `"bad-key"`, but the entry keyed `"2025-02-30"` —
shaped like a date without being a calendar date — is retained, not
dropped as the claim states. -/
theorem invalid_calendar_key_retained :
    (loadJsonDocCode (fun _ => "u") (some c5doc) emptyState).1 = true ∧
    alookup "bad-key"
      ((loadJsonDocCode (fun _ => "u") (some c5doc) emptyState).2.cells) =
      none ∧
    alookup "2025-02-30"
      ((loadJsonDocCode (fun _ => "u") (some c5doc) emptyState).2.cells) =
      some [("col-1", "b")] := by
  decide

/-- C5 amended.  The cells filter of `_load_json_path` validates keys
against the textual `YYYY-MM-DD` shape only: after a successful load
every retained key matches the shape (so `"bad-key"` is dropped and the
load does not crash), while `"2025-02-30"` passes the shape check and is
therefore retained even though it is no calendar date. -/
theorem cells_keys_shape_only_validation (supply : Nat → String)
    (doc : JVal) (st st1 : AppState)
    (h : loadJsonDocCode supply (some doc) st = (true, st1)) :
    (∀ k ∈ st1.cells.map Prod.fst, matchesDateShape k = true) ∧
    matchesDateShape "bad-key" = false ∧
    matchesDateShape "2025-02-30" = true := by
  obtain ⟨kvs, -, -, -, hcells⟩ := loadCode_true_elim supply doc st st1 h
  obtain ⟨-, hsh, -⟩ := loadedCells_good kvs st
  rw [← hcells] at hsh
  exact ⟨hsh, by decide, by decide⟩

/-- Witness for the amended C5 at the scenario document `c5doc`. -/
theorem cells_keys_shape_only_validation_witness :
    (∀ k ∈ c5st1.cells.map Prod.fst, matchesDateShape k = true) ∧
    matchesDateShape "bad-key" = false ∧
    matchesDateShape "2025-02-30" = true :=
  cells_keys_shape_only_validation (fun _ => "u") c5doc emptyState c5st1
    (by decide)

/-- C10.  A successful strict load preserves cell entries whose column
id does not occur in the loaded column definitions: the loader filters
date keys and coerces values, but it never consults the column set, so
an entry under an unknown column id is kept with its coerced text. -/
theorem unknown_column_entries_preserved (supply : Nat → String)
    (kvs u v : List (String × JVal)) (jv : JVal) (st st1 : AppState)
    (k cid : String)
    (h : loadJsonDocCode supply (some (.obj kvs)) st = (true, st1))
    (hcells : alookup "cells" kvs = some (.obj u))
    (hund : keysNodup u)
    (hk : alookup k u = some (.obj v))
    (hshape : matchesDateShape k = true)
    (hvnd : keysNodup v)
    (hcid : alookup cid v = some jv)
    (hunknown : cid ∉ st1.columns.map Column.id) :
    cellContent st1.cells k cid = some (coerceCell jv) := by
  obtain ⟨kvs1, heq, -, -, hc⟩ := loadCode_true_elim supply _ st st1 h
  have hkvs : kvs1 = kvs := (JVal.obj.inj heq).symm
  subst hkvs
  unfold cellContent
  rw [hc]
  unfold loadedCells
  rw [hcells]
  show (alookup k (processCells u)).bind (alookup cid) = some (coerceCell jv)
  rw [processCells_lookup u k hund, hk]
  show (if matchesDateShape k = true then some (processEntry v) else none).bind
      (alookup cid) = some (coerceCell jv)
  rw [if_pos hshape]
  show alookup cid (processEntry v) = some (coerceCell jv)
  rw [processEntry_lookup v cid hvnd, hcid]
  rfl

/-- Witness for C10 at the concrete document `c10doc`, whose cell entry
uses the column id `ghost`, absent from the loaded columns. -/
theorem unknown_column_entries_preserved_witness :
    cellContent c10st1.cells "2025-01-05" "ghost" =
      some (coerceCell (.str "boo")) :=
  unknown_column_entries_preserved (fun _ => "u")
    [("columns", .arr [.obj [("id", .str "col-1"), ("title", .str "T"),
                             ("width", .int 240)]]),
     ("cells", .obj [("2025-01-05", .obj [("ghost", .str "boo")])])]
    [("2025-01-05", .obj [("ghost", .str "boo")])]
    [("ghost", .str "boo")] (.str "boo") emptyState c10st1 "2025-01-05" "ghost"
    (by decide) rfl (by unfold keysNodup; decide) rfl (by decide)
    (by unfold keysNodup; decide) rfl (by decide)

theorem alookup_filter_out {α : Type} (cid : String)
    (row : List (String × α)) :
    alookup cid (row.filter (fun q => q.1 ≠ cid)) = none := by
  induction row with
  | nil => rfl
  | cons p t ih =>
    rw [List.filter_cons]
    by_cases hp : p.1 = cid
    · rw [if_neg (by simp [hp])]
      exact ih
    · rw [if_pos (by simp [hp])]
      simp only [alookup]
      rw [if_neg hp]
      exact ih

theorem alookup_filter_ne {α : Type} (cid colId : String) (hne : cid ≠ colId)
    (row : List (String × α)) :
    alookup cid (row.filter (fun q => q.1 ≠ colId)) = alookup cid row := by
  induction row with
  | nil => rfl
  | cons p t ih =>
    rw [List.filter_cons]
    by_cases hp : p.1 = colId
    · have hpc : p.1 ≠ cid := fun hh => hne (hh ▸ hp)
      rw [if_neg (by simp [hp]), ih]
      simp only [alookup]
      rw [if_neg hpc]
    · rw [if_pos (by simp [hp])]
      simp only [alookup]
      by_cases hpc : p.1 = cid
      · rw [if_pos hpc, if_pos hpc]
      · rw [if_neg hpc, if_neg hpc]
        exact ih

theorem map_filter_id (colId : String)
    (cells : List (String × List (String × String)))
    (hnoref : ∀ p ∈ cells, ∀ q ∈ p.2, q.1 ≠ colId) :
    cells.map (fun p => (p.1, p.2.filter (fun q => q.1 ≠ colId))) = cells := by
  induction cells with
  | nil => rfl
  | cons p t ih =>
    rw [List.map_cons]
    have h1 : p.2.filter (fun q => q.1 ≠ colId) = p.2 := by
      rw [List.filter_eq_self]
      intro q hq
      exact decide_eq_true (hnoref p (List.mem_cons_self _ _) q hq)
    rw [h1, ih (fun p1 hp1 q hq => hnoref p1 (List.mem_cons_of_mem _ hp1) q hq)]

/-- C6.  Deleting the column definition selected at row `r` removes that
column's entry from every day record that has one, leaves every other
column's entry in every day record unchanged, is a no-op on the cells
mapping when no day record references the column, and removes the
definition itself. -/
theorem delete_column_cascade (st : AppState) (r : Nat)
    (h : r < st.columns.length) :
    (∀ k, cellContent (removeSelectedCol st r).cells k
        (st.columns.get ⟨r, h⟩).id = none) ∧
    (∀ k cid, cid ≠ (st.columns.get ⟨r, h⟩).id →
        cellContent (removeSelectedCol st r).cells k cid =
          cellContent st.cells k cid) ∧
    ((∀ p ∈ st.cells, ∀ q ∈ p.2, q.1 ≠ (st.columns.get ⟨r, h⟩).id) →
        (removeSelectedCol st r).cells = st.cells) ∧
    (removeSelectedCol st r).columns = st.columns.eraseIdx r := by
  have hget : st.columns.get? r = some (st.columns.get ⟨r, h⟩) :=
    List.get?_eq_get h
  unfold removeSelectedCol
  rw [hget]
  refine ⟨?_, ?_, ?_, rfl⟩
  · intro k
    unfold cellContent
    rw [alookup_map_value]
    cases alookup k st.cells with
    | none => rfl
    | some row => exact alookup_filter_out _ row
  · intro k cid hne
    unfold cellContent
    rw [alookup_map_value]
    cases alookup k st.cells with
    | none => rfl
    | some row => exact alookup_filter_ne cid _ hne row
  · intro hnoref
    exact map_filter_id (st.columns.get ⟨r, h⟩).id st.cells hnoref

/-- Witness for C6 at the concrete state `c6st`, deleting column 0. -/
theorem delete_column_cascade_witness :
    (∀ k, cellContent (removeSelectedCol c6st 0).cells k
        (c6st.columns.get ⟨0, by decide⟩).id = none) ∧
    (∀ k cid, cid ≠ (c6st.columns.get ⟨0, by decide⟩).id →
        cellContent (removeSelectedCol c6st 0).cells k cid =
          cellContent c6st.cells k cid) ∧
    ((∀ p ∈ c6st.cells, ∀ q ∈ p.2, q.1 ≠ (c6st.columns.get ⟨0, by decide⟩).id) →
        (removeSelectedCol c6st 0).cells = c6st.cells) ∧
    (removeSelectedCol c6st 0).columns = c6st.columns.eraseIdx 0 :=
  delete_column_cascade c6st 0 (by decide)

/-- C8.  The window invariant `range_start ≤ range_end` holds after
every `set_view_anchor` and is preserved by every window operation, and
every operation other than a jump (`set_view_anchor`, the explicit full
rebuild) only moves `range_end` later or `range_start` earlier — it
never shrinks the window. -/
theorem window_invariant_no_shrink (st : AppState) (op : ViewOp)
    (hinv : st.range_start ≤ st.range_end) :
    ((applyViewOp st op).range_start ≤ (applyViewOp st op).range_end) ∧
    (∀ a : Int, (set_view_anchor st a).range_start ≤
        (set_view_anchor st a).range_end) ∧
    ((∀ a : Int, op ≠ ViewOp.jumpTo a) →
        (applyViewOp st op).range_start ≤ st.range_start ∧
        st.range_end ≤ (applyViewOp st op).range_end) := by
  refine ⟨?_, ?_, ?_⟩
  · cases op with
    | jumpTo a =>
      show a ≤ a + 61
      omega
    | extendForward n =>
      show st.range_start ≤ st.range_end + (n : Int)
      omega
    | extendBackward n =>
      show st.range_start - (n : Int) ≤ st.range_end
      omega
    | rebuildAll => exact hinv
  · intro a
    show a ≤ a + 61
    omega
  · intro hnj
    cases op with
    | jumpTo a => exact absurd rfl (hnj a)
    | extendForward n =>
      refine ⟨le_refl _, ?_⟩
      show st.range_end ≤ st.range_end + (n : Int)
      omega
    | extendBackward n =>
      refine ⟨?_, le_refl _⟩
      show st.range_start - (n : Int) ≤ st.range_start
      omega
    | rebuildAll => exact ⟨le_refl _, le_refl _⟩

/-- Witness for C8 at the empty state extending forward by 60. -/
theorem window_invariant_no_shrink_witness :
    ((applyViewOp emptyState (ViewOp.extendForward 60)).range_start ≤
        (applyViewOp emptyState (ViewOp.extendForward 60)).range_end) ∧
    (∀ a : Int, (set_view_anchor emptyState a).range_start ≤
        (set_view_anchor emptyState a).range_end) ∧
    ((∀ a : Int, ViewOp.extendForward 60 ≠ ViewOp.jumpTo a) →
        (applyViewOp emptyState (ViewOp.extendForward 60)).range_start ≤
          emptyState.range_start ∧
        emptyState.range_end ≤
          (applyViewOp emptyState (ViewOp.extendForward 60)).range_end) :=
  window_invariant_no_shrink emptyState (ViewOp.extendForward 60) (by decide)

/-- C9 counterexample.  `set_view_anchor` sets
`range_end = anchor + 61 days`; 61 days after 2025-01-01 is 2025-03-03,
so the window produced for the anchor 2025-01-01 does not end at
2025-03-02 as the claim states. -/
theorem anchor_window_end_not_march_second :
    (set_view_anchor emptyState (daysFromCivil 2025 1 1)).range_end ≠
      daysFromCivil 2025 3 2 := by
  decide

/-- C9 amended.  On the empty store, anchoring at 2025-01-01 produces
the window 2025-01-01 .. 2025-03-03 (range_end = range_start + 61 days,
62 materialized rows), and every row of the window renders with all
fields empty. -/
theorem anchor_empty_store_window :
    (set_view_anchor emptyState (daysFromCivil 2025 1 1)).range_start =
      daysFromCivil 2025 1 1 ∧
    (set_view_anchor emptyState (daysFromCivil 2025 1 1)).range_end =
      daysFromCivil 2025 3 3 ∧
    (set_view_anchor emptyState (daysFromCivil 2025 1 1)).range_end =
      (set_view_anchor emptyState (daysFromCivil 2025 1 1)).range_start + 61 ∧
    ∀ k : String,
      renderRow (set_view_anchor emptyState (daysFromCivil 2025 1 1)).columns
        (set_view_anchor emptyState (daysFromCivil 2025 1 1)).cells k =
        ["", ""] := by
  refine ⟨by decide, by decide, by decide, ?_⟩
  intro k
  rfl

/-- C2 counterexample.  In the `D-Scheduler` variant a programmatic
scroll that lands at the bottom edge (here value 1000 of 1000, inside
the 120-unit threshold) fires the unguarded `valueChanged` handler and
extends the window: `range_end` moves 60 days later, falsifying "never
causes window extension". -/
theorem programmatic_scroll_extends_window_mid :
    (programmaticScrollMid emptyState 1000 1000).range_end ≠
      emptyState.range_end := by
  decide

/-- C2 amended.  In the `D-Scheduler_Code` variant the handler extends
only when a user scroll action was recorded within the expiry window or
the slider is held down: a purely programmatic scroll (no unexpired
recorded user action, slider up) leaves the whole state — in particular
`range_start` and `range_end` — unchanged, whatever the scroll position;
in the earlier `D-Scheduler` variant no such guard exists. -/
theorem programmatic_scroll_no_extension_code (st : AppState)
    (env : ScrollEnv) (nowMs : Int) (expandEach : Nat)
    (hUser : ∀ lu, env.lastUser = some lu → ¬(nowMs - lu.1 ≤ max 80 lu.2))
    (hDrag : env.sliderDown = false) :
    onScrollExtendCode st env nowMs expandEach = st := by
  unfold onScrollExtendCode
  cases hl : env.lastUser with
  | none => simp [hl, hDrag]
  | some lu =>
    have hu := hUser lu hl
    simp [hl, hDrag, hu]

/-- Witness for the amended C2: a scroll position at the very bottom of
the range with no recorded user action does not extend. -/
theorem programmatic_scroll_no_extension_code_witness :
    onScrollExtendCode emptyState
      { val := 1000, mn := 0, mx := 1000, sliderDown := false,
        lastUser := none } 0 60 = emptyState :=
  programmatic_scroll_no_extension_code emptyState
    { val := 1000, mn := 0, mx := 1000, sliderDown := false,
      lastUser := none } 0 60 (fun lu h => nomatch h) rfl

/-- C3 counterexample.  `_write_json` of the `D-Scheduler` variant opens
the destination itself with `open(path, "w")`: the trace of writing
`"BB"` over old content `"AAAA"` contains an observable state (the
truncated empty file) that is neither the complete old nor the complete
new content. -/
theorem direct_write_torn_state_observable :
    ¬ (∀ fs1 ∈ fsTrace ⟨some "AAAA", none⟩ (writeJsonOpsMid ["B", "B"]),
        fs1.dest = some "AAAA" ∨ fs1.dest = some "BB") := by
  decide

theorem fsTrace_writeTmp_phase (old : Option String) :
    ∀ (chunks : List String) (acc : String) (fs1 : FSState),
      fs1 ∈ fsTrace ⟨old, some acc⟩
        (chunks.map FSOp.writeTmp ++ [FSOp.replaceTmpDest]) →
      fs1.dest = old ∨
        fs1.dest = some (chunks.foldl (fun a c => a ++ c) acc) := by
  intro chunks
  induction chunks with
  | nil =>
    intro acc fs1 hmem
    simp only [List.map_nil, List.nil_append, fsTrace, applyFSOp,
      List.mem_cons, List.mem_singleton, List.not_mem_nil, or_false] at hmem
    rcases hmem with h1 | h1
    · exact Or.inl (by rw [h1])
    · exact Or.inr (by rw [h1]; rfl)
  | cons c t ih =>
    intro acc fs1 hmem
    simp only [List.map_cons, List.cons_append, fsTrace, applyFSOp,
      List.mem_cons] at hmem
    rcases hmem with h1 | h1
    · exact Or.inl (by rw [h1])
    · have := ih (acc ++ c) fs1 (by simpa [Option.getD] using h1)
      simpa using this

/-- C3 amended.  `_write_json` of the `D-Scheduler_Code` variant writes
the serialized document to the `.tmp` sibling first and then atomically
replaces the destination: every state of the write's trace shows the
destination holding either the complete old content or the complete new
content — no partially written destination is ever observable.  (The
`D-Scheduler` and `カレンダーメモ帳` variants write the destination
directly instead.) -/
theorem atomic_write_no_torn_destination (old : Option String)
    (chunks : List String) (fs1 : FSState)
    (hmem : fs1 ∈ fsTrace ⟨old, none⟩ (writeJsonOpsCode chunks)) :
    fs1.dest = old ∨
      fs1.dest = some (chunks.foldl (fun a c => a ++ c) "") := by
  simp only [writeJsonOpsCode, fsTrace, applyFSOp, List.mem_cons] at hmem
  rcases hmem with h1 | h1
  · exact Or.inl (by rw [h1])
  · exact fsTrace_writeTmp_phase old chunks "" fs1 h1

/-- Witness for the amended C3: the mid-write state of an atomic write
of `"BB"` over `"AAAA"` still shows the old destination content. -/
theorem atomic_write_no_torn_destination_witness :
    ({ dest := some "AAAA", tmp := some "B" } : FSState).dest = some "AAAA" ∨
    ({ dest := some "AAAA", tmp := some "B" } : FSState).dest =
      some ((["B", "B"] : List String).foldl (fun a c => a ++ c) "") :=
  atomic_write_no_torn_destination (some "AAAA") ["B", "B"]
    { dest := some "AAAA", tmp := some "B" } (by decide)

/-- C7 counterexample.  In the `D-Scheduler_Code` variant an I/O error
during an autosave-tick write is caught inside `_write_json` itself,
which pops a warning dialog and returns normally; the tick then clears
the dirty flag, so the failed write is neither silent nor retried —
contradicting the claim that the flag remains set with no user
interruption. -/
theorem autosave_failure_clears_dirty_code :
    (autosaveTickCode true true WriteOutcome.ioError).dirty = false ∧
    (autosaveTickCode true true WriteOutcome.ioError).warningShown = true := by
  decide

/-- C7 amended.  In the `D-Scheduler` variant (bare `_write_json`, no
dialog) an autosave-tick write failure is swallowed without user
interruption and leaves the dirty flag set, so the next tick retries;
the flag is cleared exactly when the write succeeds.  In the
`D-Scheduler_Code` variant the failure instead shows a warning and the
flag is cleared regardless. -/
theorem autosave_failure_keeps_dirty_mid (o : WriteOutcome) :
    ((autosaveTickMid true true o).dirty = false ↔ o = WriteOutcome.success) ∧
    (autosaveTickMid true true o).warningShown = false := by
  cases o <;> simp [autosaveTickMid]

end DScheduler
